import Mathlib

/-!
Verification of the NanoBanana map editor core logic.

The development shallowly embeds the module's arithmetic and control flow:

* the scene-space / device-pixel coordinate mapping of `scripts/capture.js`
  (forward, lines 91-94) and `scripts/capture.mjs` (`_screenToScene`,
  lines 182-190);
* the drag-selection finalization of `scripts/main.js`
  (`_normalizeRect` / `_handlePointerUp`, lines 136-169);
* the stage position/scale bookkeeping of the render-texture capture
  strategy of `scripts/capture.js` (lines 29-68), with the fallible
  external renderer calls modelled as success/failure oracles;
* the response handling of the two API clients, the Stable-Diffusion-style
  `sendImg2Img` (src/unnamed/part_000, lines 51-68) and the multimodal
  `sendImg2Img` (src/unnamed/part_001, lines 72-111);
* the flood-fill background remover of `scripts/background-removal.js`
  (`removeWhiteBackground`, lines 22-129).

JavaScript numbers are modelled as exact rationals, `Math.round` as
Mathlib's `round` (both round half up), RGBA bytes as naturals, and the
flood fill's `Uint8Array` visited set plus head-indexed queue as lists.
-/

/-! ## Coordinate mapper -/

/-- A rectangle `{x, y, width, height}` in scene coordinates. -/
structure SceneRect where
  x : ℚ
  y : ℚ
  width : ℚ
  height : ℚ
deriving DecidableEq

/-- A rectangle in device-pixel coordinates, as produced by the rounded
forward mapping. -/
structure DeviceRect where
  x : ℤ
  y : ℤ
  width : ℤ
  height : ℤ
deriving DecidableEq

/-- The viewport transform snapshot read at capture time: stage scale,
stage position (offset) and renderer resolution
(`scripts/capture.js` lines 80-88). -/
structure TransformSnapshot where
  scaleX : ℚ
  scaleY : ℚ
  offsetX : ℚ
  offsetY : ℚ
  resolution : ℚ
deriving DecidableEq

/-- Forward mapping of scene coordinates to device (canvas buffer) pixels,
from `scripts/capture.js` lines 91-94:
`srcX = Math.round((rect.x * scaleX + offsetX) * resolution)` and
`srcW = Math.round(rect.width * scaleX * resolution)` (y/height analogous;
width/height use the scale but not the offset). -/
def sceneToDevice (rect : SceneRect) (t : TransformSnapshot) : DeviceRect where
  x := round ((rect.x * t.scaleX + t.offsetX) * t.resolution)
  y := round ((rect.y * t.scaleY + t.offsetY) * t.resolution)
  width := round (rect.width * t.scaleX * t.resolution)
  height := round (rect.height * t.scaleY * t.resolution)

/-- The stage world transform `{a, d, tx, ty}` consumed by
`_screenToScene` (`scripts/capture.mjs` line 183):
`screenX = sceneX * a + tx`, `screenY = sceneY * d + ty`. -/
structure WorldTransform where
  a : ℚ
  d : ℚ
  tx : ℚ
  ty : ℚ
deriving DecidableEq

/-- Inverse mapping from `scripts/capture.mjs` lines 182-190: solve the
linear relation, `x = (screenX - tx) / a`, `width = screenW / a`
(y/height analogous with `d`/`ty`). The source performs the division
unconditionally: there is no validation of `a` or `d`. -/
def _screenToScene (screenX screenY screenW screenH : ℚ) (t : WorldTransform) : SceneRect where
  x := (screenX - t.tx) / t.a
  y := (screenY - t.ty) / t.d
  width := screenW / t.a
  height := screenH / t.d

/-- The world transform corresponding to a transform snapshot in
device-pixel space: `a = scaleX * resolution`, `tx = offsetX * resolution`
(so that the forward mapping of `sceneToDevice` is exactly
`round (sceneX * a + tx)`). -/
def worldTransformOf (t : TransformSnapshot) : WorldTransform where
  a := t.scaleX * t.resolution
  d := t.scaleY * t.resolution
  tx := t.offsetX * t.resolution
  ty := t.offsetY * t.resolution

/-- Inverse mapping applied to a device rectangle, pairing
`_screenToScene` with the transform snapshot used by the forward
mapping. -/
def deviceToScene (r : DeviceRect) (t : TransformSnapshot) : SceneRect :=
  _screenToScene (r.x : ℚ) (r.y : ℚ) (r.width : ℚ) (r.height : ℚ) (worldTransformOf t)

/-- Zero-scale-checked inverse mapping, following the spec text (section 4.1):
a malformed transform (zero scale) produces an `InvalidTransform` failure
rather than dividing by zero. This definition follows the spec wording and is
compared against the source's `_screenToScene`, which has no such check. -/
def screenToSceneSpec (screenX screenY screenW screenH : ℚ) (t : WorldTransform) :
    Except String SceneRect :=
  if t.a = 0 ∨ t.d = 0 then Except.error ("InvalidTransform")
  else Except.ok
    { x := (screenX - t.tx) / t.a
      y := (screenY - t.ty) / t.d
      width := screenW / t.a
      height := screenH / t.d }

/-- Rounding a value of the affine form `v * a + c` and inverting the
affine map afterwards deviates from `v` by at most one device pixel
(measured in device pixels, i.e. after multiplying by `|a|`). -/
lemma round_affine_inv_mul_abs_le (a c v : ℚ) :
    |(((round (v * a + c) : ℤ) : ℚ) - c) / a - v| * |a| ≤ 1 := by
  rcases eq_or_ne a 0 with h0 | h0
  · simp [h0]
  · have key : (((round (v * a + c) : ℤ) : ℚ) - c) / a - v
        = (((round (v * a + c) : ℤ) : ℚ) - (v * a + c)) / a := by
      field_simp
      ring
    rw [key, abs_div, div_mul_cancel₀ _ (abs_ne_zero.mpr h0), abs_sub_comm]
    exact le_trans (abs_sub_round (v * a + c)) (by norm_num)

/-- Claim C1: for every scene-space rectangle `R` and transform snapshot `T`
with non-zero scale components, `deviceToScene (sceneToDevice R T) T`
equals `R` to within a rounding tolerance of one device pixel in each of
x, y, width and height (deviations are measured in device pixels by
multiplying by the device-pixels-per-scene-unit factor `|scale * resolution|`). -/
theorem claim_C1_roundtrip (r : SceneRect) (t : TransformSnapshot)
    (hx : t.scaleX ≠ 0) (hy : t.scaleY ≠ 0) :
    |(deviceToScene (sceneToDevice r t) t).x - r.x| * |t.scaleX * t.resolution| ≤ 1 ∧
    |(deviceToScene (sceneToDevice r t) t).y - r.y| * |t.scaleY * t.resolution| ≤ 1 ∧
    |(deviceToScene (sceneToDevice r t) t).width - r.width| * |t.scaleX * t.resolution| ≤ 1 ∧
    |(deviceToScene (sceneToDevice r t) t).height - r.height| * |t.scaleY * t.resolution| ≤ 1 := by
  refine ⟨?_, ?_, ?_, ?_⟩
  · have h : (r.x * t.scaleX + t.offsetX) * t.resolution
        = r.x * (t.scaleX * t.resolution) + t.offsetX * t.resolution := by ring
    simpa [deviceToScene, sceneToDevice, _screenToScene, worldTransformOf, h] using
      round_affine_inv_mul_abs_le (t.scaleX * t.resolution) (t.offsetX * t.resolution) r.x
  · have h : (r.y * t.scaleY + t.offsetY) * t.resolution
        = r.y * (t.scaleY * t.resolution) + t.offsetY * t.resolution := by ring
    simpa [deviceToScene, sceneToDevice, _screenToScene, worldTransformOf, h] using
      round_affine_inv_mul_abs_le (t.scaleY * t.resolution) (t.offsetY * t.resolution) r.y
  · have h : r.width * t.scaleX * t.resolution
        = r.width * (t.scaleX * t.resolution) + 0 := by ring
    simpa [deviceToScene, sceneToDevice, _screenToScene, worldTransformOf, h] using
      round_affine_inv_mul_abs_le (t.scaleX * t.resolution) 0 r.width
  · have h : r.height * t.scaleY * t.resolution
        = r.height * (t.scaleY * t.resolution) + 0 := by ring
    simpa [deviceToScene, sceneToDevice, _screenToScene, worldTransformOf, h] using
      round_affine_inv_mul_abs_le (t.scaleY * t.resolution) 0 r.height

/-- Witness for C1 at the spec's end-to-end scenario rectangle and transform. -/
theorem claim_C1_roundtrip_witness :
    (((⟨2, 2, 50, 50, 1⟩ : TransformSnapshot).scaleX ≠ 0 ∧
      (⟨2, 2, 50, 50, 1⟩ : TransformSnapshot).scaleY ≠ 0) ∧
     (|(deviceToScene (sceneToDevice ⟨100, 100, 200, 150⟩ ⟨2, 2, 50, 50, 1⟩)
          ⟨2, 2, 50, 50, 1⟩).x - (100 : ℚ)| * |(2 : ℚ) * 1| ≤ 1 ∧
      |(deviceToScene (sceneToDevice ⟨100, 100, 200, 150⟩ ⟨2, 2, 50, 50, 1⟩)
          ⟨2, 2, 50, 50, 1⟩).y - (100 : ℚ)| * |(2 : ℚ) * 1| ≤ 1 ∧
      |(deviceToScene (sceneToDevice ⟨100, 100, 200, 150⟩ ⟨2, 2, 50, 50, 1⟩)
          ⟨2, 2, 50, 50, 1⟩).width - (200 : ℚ)| * |(2 : ℚ) * 1| ≤ 1 ∧
      |(deviceToScene (sceneToDevice ⟨100, 100, 200, 150⟩ ⟨2, 2, 50, 50, 1⟩)
          ⟨2, 2, 50, 50, 1⟩).height - (150 : ℚ)| * |(2 : ℚ) * 1| ≤ 1)) :=
  ⟨⟨by norm_num, by norm_num⟩,
   claim_C1_roundtrip ⟨100, 100, 200, 150⟩ ⟨2, 2, 50, 50, 1⟩ (by norm_num) (by norm_num)⟩

/-- Claim C2: the forward mapping computes
`deviceX = round ((sceneX * scale.x + offset.x) * resolution)` and
`deviceWidth = round (sceneWidth * scale.x * resolution)` (no offset term;
y/height analogous), and on the rectangle `{x:100, y:100, width:200, height:150}`
with transform `{scale:{x:2,y:2}, offset:{x:50,y:50}, resolution:1}` it yields
exactly `{x:250, y:250, width:400, height:300}`. -/
theorem claim_C2_forward_mapping :
    (∀ (r : SceneRect) (t : TransformSnapshot),
        sceneToDevice r t =
          { x := round ((r.x * t.scaleX + t.offsetX) * t.resolution)
            y := round ((r.y * t.scaleY + t.offsetY) * t.resolution)
            width := round (r.width * t.scaleX * t.resolution)
            height := round (r.height * t.scaleY * t.resolution) }) ∧
    sceneToDevice ⟨100, 100, 200, 150⟩ ⟨2, 2, 50, 50, 1⟩ = ⟨250, 250, 400, 300⟩ := by
  constructor
  · intro r t
    rfl
  · show (⟨round ((100 * 2 + 50) * 1 : ℚ), round ((100 * 2 + 50) * 1 : ℚ),
        round (200 * 2 * 1 : ℚ), round (150 * 2 * 1 : ℚ)⟩ : DeviceRect) = _
    norm_num

/-! ## Selection interaction controller -/

/-- A pointer position in the stage's local coordinate space. -/
structure CanvasPoint where
  x : ℚ
  y : ℚ
deriving DecidableEq

/-- `_normalizeRect` from `scripts/main.js` lines 163-169: canonicalize the
two drag corners into `{x, y, width, height}` with x/y the minima and
width/height the absolute differences. -/
def _normalizeRect (s e : CanvasPoint) : SceneRect where
  x := min s.x e.x
  y := min s.y e.y
  width := |e.x - s.x|
  height := |e.y - s.y|

/-- The observable outcome of `_handlePointerUp`: the `_startPoint` field
afterwards, the rectangle handed to the workflow orchestrator
(`processSelection`) if any, and whether the layer was deactivated. -/
structure PointerUpEffect where
  startPoint : Option CanvasPoint
  orchestrated : Option SceneRect
  deactivated : Bool
deriving DecidableEq

/-- `_handlePointerUp` from `scripts/main.js` lines 136-151: with no
recorded start point it returns immediately; otherwise it normalizes the
corners, clears `_startPoint`, and if either dimension is below 10 it
returns without deactivating and without calling `processSelection`;
otherwise it deactivates and hands the rectangle to the orchestrator. -/
def _handlePointerUp (startPoint : Option CanvasPoint) (pos : CanvasPoint) : PointerUpEffect :=
  match startPoint with
  | none => ⟨none, none, false⟩
  | some s =>
    let rect := _normalizeRect s pos
    if rect.width < 10 ∨ rect.height < 10 then ⟨none, none, false⟩
    else ⟨none, some rect, true⟩

/-- Claim C7: a finalized drag whose normalized rectangle has width or
height below 10 is discarded: the drag state returns to idle
(`startPoint = none`) and the workflow orchestrator is never invoked. -/
theorem claim_C7_small_selection_discarded (s pos : CanvasPoint)
    (hsmall : (_normalizeRect s pos).width < 10 ∨ (_normalizeRect s pos).height < 10) :
    (_handlePointerUp (some s) pos).orchestrated = none ∧
    (_handlePointerUp (some s) pos).startPoint = none := by
  simp [_handlePointerUp, hsmall]

/-- Witness for C7: a 5-by-100 drag is below the width threshold and is
discarded without invoking the orchestrator. -/
theorem claim_C7_small_selection_discarded_witness :
    ((_normalizeRect ⟨0, 0⟩ ⟨5, 100⟩).width < 10 ∨
     (_normalizeRect ⟨0, 0⟩ ⟨5, 100⟩).height < 10) ∧
    ((_handlePointerUp (some ⟨0, 0⟩) ⟨5, 100⟩).orchestrated = none ∧
     (_handlePointerUp (some ⟨0, 0⟩) ⟨5, 100⟩).startPoint = none) :=
  ⟨Or.inl (by norm_num [_normalizeRect]),
   claim_C7_small_selection_discarded ⟨0, 0⟩ ⟨5, 100⟩ (Or.inl (by norm_num [_normalizeRect]))⟩

/-! ## Render-texture capture strategy: stage transform bookkeeping -/

/-- The stage's position and scale (`canvas.stage.position` /
`canvas.stage.scale`). -/
structure StageState where
  posX : ℚ
  posY : ℚ
  scaleX : ℚ
  scaleY : ℚ
deriving DecidableEq

/-- Success/failure oracles for the fallible external PIXI calls made by
the render-texture strategy: `PIXI.RenderTexture.create`, the PIXI v8 and
v7 style `renderer.render` calls, and the two extraction calls. -/
structure RenderOutcomes where
  createOk : Bool
  renderV8Ok : Bool
  renderV7Ok : Bool
  extractCanvasOk : Bool
  extractBase64Ok : Bool
deriving DecidableEq

/-- The render-texture capture strategy of `scripts/capture.js` lines 29-68,
tracking only the stage transform and whether the strategy produced an
image (`true`) or fell through to the outer `catch` (`false`).
Control flow: if `RenderTexture.create` throws, the stage is untouched.
Otherwise the stage is set to `(-rect.x, -rect.y)` at scale `(1, 1)` and the
v8-style render is attempted with the v7 style as `catch` fallback; if either
succeeds, lines 52-53 restore the original position/scale and extraction
follows (its own failures happen after the restore). If both render calls
throw, the exception propagates to the outer `catch` before the restore
statements run, leaving the stage mutated. -/
def renderTextureStrategy (st : StageState) (rect : SceneRect) (o : RenderOutcomes) :
    StageState × Bool :=
  if o.createOk = false then (st, false)
  else
    let mutated : StageState := ⟨-rect.x, -rect.y, 1, 1⟩
    if o.renderV8Ok || o.renderV7Ok then
      if o.extractCanvasOk || o.extractBase64Ok then (st, true) else (st, false)
    else (mutated, false)

/-- Claim C9 failing input: with the stage at position (10, 20), scale (2, 3),
capturing rectangle (100, 200, 50, 60), when both the v8-style and v7-style
render calls throw, the strategy exits exceptionally with the stage left at
position (-100, -200), scale (1, 1) — the pre-capture transform is not
restored, contradicting the always-restore property. -/
theorem claim_C9_stage_left_mutated :
    (renderTextureStrategy ⟨10, 20, 2, 3⟩ ⟨100, 200, 50, 60⟩
        ⟨true, false, false, true, true⟩).1 = (⟨-100, -200, 1, 1⟩ : StageState) ∧
    (renderTextureStrategy ⟨10, 20, 2, 3⟩ ⟨100, 200, 50, 60⟩
        ⟨true, false, false, true, true⟩).1 ≠ (⟨10, 20, 2, 3⟩ : StageState) := by
  constructor
  · rfl
  · decide

/-! ## Stable-Diffusion-style API client (src/unnamed/part_000) -/

namespace SD

/-- The parsed JSON body of an img2img response: the `images` field is
either absent or a list of base64 strings. -/
structure Img2ImgResponse where
  images : Option (List String)
deriving DecidableEq

/-- The observable outcome of the response handling of `sendImg2Img`. -/
inductive Img2ImgResult where
  /-- `!response.ok`: thrown with the response text as detail (lines 51-56). -/
  | apiError (errorText : String)
  /-- `!result.images || result.images.length === 0`: thrown with detail
  "No images returned" (lines 60-66). -/
  | noImages
  /-- `return result.images[0]` (line 68). -/
  | image (b64 : String)
deriving DecidableEq

/-- Response handling of `sendImg2Img` from src/unnamed/part_000
lines 51-68 (the HTTP transport is abstracted into the `ok` flag and the
parsed body). The result image string is returned exactly as received. -/
def sendImg2Img (ok : Bool) (errorText : String) (result : Img2ImgResponse) : Img2ImgResult :=
  if ok = false then .apiError errorText
  else
    match result.images with
    | none => .noImages
    | some [] => .noImages
    | some (first :: _) => .image first

end SD

/-- Claim C4: a success-status response whose parsed body has `images`
missing or empty fails with the no-images error; it never succeeds with
any image. -/
theorem claim_C4_empty_images_fail (errorText : String) (resp : SD.Img2ImgResponse)
    (hempty : resp.images = none ∨ resp.images = some []) :
    SD.sendImg2Img true errorText resp = SD.Img2ImgResult.noImages ∧
    ∀ b64 : String, SD.sendImg2Img true errorText resp ≠ SD.Img2ImgResult.image b64 := by
  rcases hempty with h | h <;>
    simp [SD.sendImg2Img, h]

/-- Witness for C4 at the mocked response `{images: []}`. -/
theorem claim_C4_empty_images_fail_witness :
    ((⟨some []⟩ : SD.Img2ImgResponse).images = none ∨
     (⟨some []⟩ : SD.Img2ImgResponse).images = some []) ∧
    (SD.sendImg2Img true ("detail") ⟨some []⟩ = SD.Img2ImgResult.noImages ∧
     ∀ b64 : String, SD.sendImg2Img true ("detail") ⟨some []⟩ ≠ SD.Img2ImgResult.image b64) :=
  ⟨Or.inr rfl, claim_C4_empty_images_fail ("detail") ⟨some []⟩ (Or.inr rfl)⟩

/-- Claim C5 counterexample: for the mocked response
`{images: ["data:image/png;base64,AAAA"]}` the client does NOT return the
stripped payload "AAAA"; it returns the string unchanged, data-URL prefix
included. -/
theorem claim_C5_counterexample :
    SD.sendImg2Img true ("") ⟨some [("data:image/png;base64,AAAA")]⟩ ≠
      SD.Img2ImgResult.image ("AAAA") ∧
    SD.sendImg2Img true ("") ⟨some [("data:image/png;base64,AAAA")]⟩ =
      SD.Img2ImgResult.image ("data:image/png;base64,AAAA") := by
  constructor
  · decide
  · rfl

/-- Claim C5 (amended): the single-image client returns the first element
of `images` unchanged — no data-URL prefix is stripped; in particular the
mocked response yields the full data-URL string. -/
theorem claim_C5_amended_first_image_unchanged :
    (∀ (errorText first : String) (rest : List String),
        SD.sendImg2Img true errorText ⟨some (first :: rest)⟩ =
          SD.Img2ImgResult.image first) ∧
    SD.sendImg2Img true ("") ⟨some [("data:image/png;base64,AAAA")]⟩ =
      SD.Img2ImgResult.image ("data:image/png;base64,AAAA") := by
  exact ⟨fun _ _ _ => rfl, rfl⟩

/-! ## Multimodal (Gemini) API client (src/unnamed/part_001) -/

namespace Gemini

/-- An `inlineData` object of a response content part. -/
structure InlineData where
  mimeType : Option String
  data : Option String
deriving DecidableEq

/-- A content part: may carry text, inline image data, both or neither. -/
structure Part where
  text : Option String
  inlineData : Option InlineData
deriving DecidableEq

/-- A candidate's `content` object. -/
structure Content where
  parts : Option (List Part)
deriving DecidableEq

/-- A response candidate. -/
structure Candidate where
  content : Option Content
deriving DecidableEq

/-- The parsed JSON body of a `generateContent` response. -/
structure GenerateContentResponse where
  candidates : Option (List Candidate)
deriving DecidableEq

/-- The observable outcome of the response handling of `sendImg2Img`. -/
inductive EditResult where
  /-- `!response.ok` (lines 72-77). -/
  | apiError (errorText : String)
  /-- `!candidates || candidates.length === 0` (lines 82-89). -/
  | noCandidates
  /-- `candidates[0]?.content?.parts` missing (lines 91-98). -/
  | noContentParts
  /-- the part loop found no image (lines 107-111). -/
  | noImageInParts
  /-- `return part.inlineData.data` (line 103). -/
  | image (b64 : String)
deriving DecidableEq

/-- The JavaScript truthiness test `part.inlineData?.data` of line 102:
yields the data string when the chain is present and the string non-empty
(an empty string is falsy in JavaScript and is skipped). -/
def partImageData (p : Part) : Option String :=
  match p.inlineData with
  | none => none
  | some d =>
    match d.data with
    | none => none
    | some s => if s = "" then none else some s

/-- Response handling of `sendImg2Img` from src/unnamed/part_001
lines 72-111: check HTTP status, then candidates, then
`candidates[0]?.content?.parts` (an empty parts array passes the `!parts`
check), then return the first part whose `inlineData.data` is truthy. -/
def sendImg2Img (ok : Bool) (errorText : String) (result : GenerateContentResponse) :
    EditResult :=
  if ok = false then .apiError errorText
  else
    match result.candidates with
    | none => .noCandidates
    | some [] => .noCandidates
    | some (c :: _) =>
      match (match c.content with | none => none | some ct => ct.parts) with
      | none => .noContentParts
      | some parts =>
        match parts.findSome? partImageData with
        | some s => .image s
        | none => .noImageInParts

end Gemini

/-- `List.findSome?` returns `none` on a list on which the function is
everywhere `none`. -/
lemma findSome?_eq_none_of_forall_none {α β : Type} {f : α → Option β} :
    ∀ {l : List α}, (∀ q ∈ l, f q = none) → l.findSome? f = none
  | [], _ => rfl
  | a :: l, h => by
    have ha := h a (List.mem_cons_self a l)
    have hl := findSome?_eq_none_of_forall_none (fun q hq => h q (List.mem_cons_of_mem a hq))
    simp [List.findSome?_cons, ha, hl]

/-- `List.findSome?` over an append whose first half yields nothing
continues into the second half. -/
lemma findSome?_append_of_forall_none {α β : Type} {f : α → Option β} :
    ∀ {l₁ l₂ : List α}, (∀ q ∈ l₁, f q = none) →
      (l₁ ++ l₂).findSome? f = l₂.findSome? f
  | [], _, _ => rfl
  | a :: l₁, l₂, h => by
    have ha := h a (List.mem_cons_self a l₁)
    have hl := @findSome?_append_of_forall_none _ _ f l₁ l₂
      (fun q hq => h q (List.mem_cons_of_mem a hq))
    simp [List.findSome?_cons, ha, hl]

/-- Claim C6: for a multimodal response whose first candidate's parts are a
prefix of non-image parts followed by an image-bearing part, the client
returns that first image part's data, skipping the preceding parts. -/
theorem claim_C6_first_image_part (errorText : String)
    (resp : Gemini.GenerateContentResponse) (c : Gemini.Candidate)
    (cs : List Gemini.Candidate) (ct : Gemini.Content)
    (pre : List Gemini.Part) (p : Gemini.Part) (post : List Gemini.Part) (s : String)
    (hc : resp.candidates = some (c :: cs))
    (hct : c.content = some ct)
    (hp : ct.parts = some (pre ++ p :: post))
    (hpre : ∀ q ∈ pre, Gemini.partImageData q = none)
    (himg : Gemini.partImageData p = some s) :
    Gemini.sendImg2Img true errorText resp = Gemini.EditResult.image s := by
  have hfind : (pre ++ p :: post).findSome? Gemini.partImageData = some s := by
    rw [findSome?_append_of_forall_none hpre]
    simp [List.findSome?_cons, himg]
  simp [Gemini.sendImg2Img, hc, hct, hp, hfind]

/-- Witness for C6 at the mocked response
`{candidates:[{content:{parts:[{text:"..."}, {inlineData:{data:"BBBB"}}]}}]}`:
the text part is skipped and the result is "BBBB". -/
theorem claim_C6_first_image_part_witness :
    Gemini.sendImg2Img true ("")
        ⟨some [⟨some ⟨some ([⟨some ("a caption"), none⟩,
          ⟨none, some ⟨none, some ("BBBB")⟩⟩])⟩⟩]⟩ =
      Gemini.EditResult.image ("BBBB") :=
  claim_C6_first_image_part ("") _ _ [] ⟨some ([⟨some ("a caption"), none⟩,
      ⟨none, some ⟨none, some ("BBBB")⟩⟩])⟩
    [⟨some ("a caption"), none⟩] (⟨none, some ⟨none, some ("BBBB")⟩⟩) [] ("BBBB")
    rfl rfl rfl (by decide) rfl

/-- Claim C8 counterexample: on a transform with zero scale the source's
`_screenToScene` yields a rectangle value (in JavaScript, non-finite
coordinates from dividing by zero) — it does not fail — whereas the
spec-checked mapping fails with `InvalidTransform`. -/
theorem claim_C8_counterexample :
    Except.ok (_screenToScene 100 200 50 60 ⟨0, 0, 10, 20⟩) ≠
      screenToSceneSpec 100 200 50 60 ⟨0, 0, 10, 20⟩ ∧
    screenToSceneSpec 100 200 50 60 ⟨0, 0, 10, 20⟩ =
      Except.error ("InvalidTransform") := by
  constructor
  · simp [screenToSceneSpec]
  · rfl

/-- Claim C8 (amended): the coordinate mapping performs no zero-scale
validation. On transforms with non-zero scales it agrees with the
spec-checked mapping; on a zero-scale transform it still produces a
rectangle (the division is performed regardless) instead of an
`InvalidTransform` failure. -/
theorem claim_C8_amended_no_validation (screenX screenY screenW screenH : ℚ)
    (t : WorldTransform) (ha : t.a ≠ 0) (hd : t.d ≠ 0) :
    Except.ok (_screenToScene screenX screenY screenW screenH t) =
      screenToSceneSpec screenX screenY screenW screenH t ∧
    ∀ u : WorldTransform, ∃ r : SceneRect,
      _screenToScene screenX screenY screenW screenH u = r := by
  constructor
  · simp [screenToSceneSpec, _screenToScene, ha, hd]
  · intro u
    exact ⟨_, rfl⟩

/-- Witness for the amended C8 at a concrete non-degenerate transform. -/
theorem claim_C8_amended_no_validation_witness :
    ((⟨2, 2, 50, 50⟩ : WorldTransform).a ≠ 0 ∧ (⟨2, 2, 50, 50⟩ : WorldTransform).d ≠ 0) ∧
    (Except.ok (_screenToScene 100 200 50 60 ⟨2, 2, 50, 50⟩) =
        screenToSceneSpec 100 200 50 60 ⟨2, 2, 50, 50⟩ ∧
     ∀ u : WorldTransform, ∃ r : SceneRect, _screenToScene 100 200 50 60 u = r) :=
  ⟨⟨by norm_num, by norm_num⟩,
   claim_C8_amended_no_validation 100 200 50 60 ⟨2, 2, 50, 50⟩ (by norm_num) (by norm_num)⟩

/-! ## Flood-fill background remover (scripts/background-removal.js) -/

/-- An RGBA pixel as read from the canvas `ImageData` byte array
(`data[off] .. data[off+3]`). -/
structure Pixel where
  r : ℕ
  g : ℕ
  b : ℕ
  a : ℕ
deriving DecidableEq

/-- A decoded image: dimensions plus the pixel at each flat index
`idx = y * w + x`. -/
structure Image where
  w : ℕ
  h : ℕ
  px : ℕ → Pixel

/-- `isWhitish` from `scripts/background-removal.js` lines 50-58: a pixel
is background-like when already near-transparent (`alpha < 10`) or within
the colour-distance threshold of pure white, comparing the squared
Euclidean RGB distance against the precomputed squared threshold. -/
def isWhitish (img : Image) (thresholdSq : ℤ) (idx : ℕ) : Bool :=
  let p := img.px idx
  if p.a < 10 then true
  else
    let dr : ℤ := 255 - (p.r : ℤ)
    let dg : ℤ := 255 - (p.g : ℤ)
    let db : ℤ := 255 - (p.b : ℤ)
    decide (dr * dr + dg * dg + db * db ≤ thresholdSq)

/-- The border indices enumerated by the two seeding loops of lines 66-92:
top and bottom edges for `x = 0 .. w-1`, then left and right edges for
`y = 1 .. h-2` (corners already handled). -/
def borderSeedList (w h : ℕ) : List ℕ :=
  ((List.range w).bind fun x => [x, (h - 1) * w + x]) ++
  ((List.range (h - 2)).bind fun k => [(k + 1) * w, (k + 1) * w + (w - 1)])

/-- One seeding check of lines 66-92: push the pixel if it was not already
visited and qualifies as white-ish (`!visited[p] && isWhitish(p)`). -/
def seedStep (img : Image) (thresholdSq : ℤ) (acc : List ℕ) (i : ℕ) : List ℕ :=
  if i ∈ acc then acc
  else if isWhitish img thresholdSq i then acc ++ [i]
  else acc

/-- The seed queue built by the two seeding loops, in source order. -/
def seedPass (img : Image) (thresholdSq : ℤ) : List ℕ :=
  (borderSeedList img.w img.h).foldl (seedStep img thresholdSq) []

/-- The 4-connected neighbour candidates of lines 100-116, guarded exactly
as in the source (`x > 0`, `x < w-1`, `y > 0`, `y < h-1`). -/
def neighbors (w h idx : ℕ) : List ℕ :=
  let x := idx % w
  let y := idx / w
  (if 0 < x then [idx - 1] else []) ++
  (if x < w - 1 then [idx + 1] else []) ++
  (if 0 < y then [idx - w] else []) ++
  (if y < h - 1 then [idx + w] else [])

/-- The BFS expansion loop of lines 95-117. The `Uint8Array` visited set is
modelled as the list of indices marked so far, the head-indexed queue as a
list consumed from the front. Each dequeued pixel's unvisited white-ish
neighbours are marked and enqueued (the four neighbour candidates of a
pixel are pairwise distinct, so filtering against the pre-iteration
visited set matches the source's sequential mark-and-push). The source's
`while (head < queue.length)` loop is given explicit fuel; the caller
passes enough fuel for the queue to drain (each enqueue marks a fresh
pixel, so the loop body runs at most `w * h` times). -/
def floodLoop (img : Image) (thresholdSq : ℤ) : ℕ → List ℕ → List ℕ → List ℕ
  | 0, _, visited => visited
  | _ + 1, [], visited => visited
  | fuel + 1, idx :: rest, visited =>
    let cand := (neighbors img.w img.h idx).filter
      (fun n => decide (n ∉ visited) && isWhitish img thresholdSq n)
    floodLoop img thresholdSq fuel (rest ++ cand) (visited ++ cand)

/-- The complete visited set of `removeWhiteBackground`: seed the border,
then run the BFS to exhaustion (`2 * (w * h)` fuel provably suffices). The
squared threshold is precomputed as in line 44. -/
def floodVisited (img : Image) (threshold : ℤ) : List ℕ :=
  floodLoop img (threshold * threshold) (2 * (img.w * img.h))
    (seedPass img (threshold * threshold)) (seedPass img (threshold * threshold))

/-- `removeWhiteBackground` from lines 22-129 (pixel-level core; PNG
decode/encode are external): every visited (border-connected background)
pixel has its alpha set to 0 (lines 119-124); all other pixels, and the
R/G/B channels of every pixel, are untouched. -/
def removeWhiteBackground (img : Image) (threshold : ℤ) : Image where
  w := img.w
  h := img.h
  px := fun i =>
    let p := img.px i
    if i ∈ floodVisited img threshold then ⟨p.r, p.g, p.b, 0⟩ else p

/-- A valid flat index lying on the image border (first or last column or
row). -/
def isBorderPx (w h idx : ℕ) : Prop :=
  idx < w * h ∧ (idx % w = 0 ∨ idx % w + 1 = w ∨ idx / w = 0 ∨ idx / w + 1 = h)

/-- 4-connectivity of two valid flat indices: same row and adjacent
columns, or same column and adjacent rows. -/
def adjacentPx (w h i j : ℕ) : Prop :=
  i < w * h ∧ j < w * h ∧
  ((i / w = j / w ∧ (i % w + 1 = j % w ∨ j % w + 1 = i % w)) ∨
   (i % w = j % w ∧ (i / w + 1 = j / w ∨ j / w + 1 = i / w)))

/-- Background-reachability: the pixels connected to the image border by a
4-connected path of white-ish pixels (the path's endpoints included). -/
inductive ReachBG (img : Image) (thresholdSq : ℤ) : ℕ → Prop where
  | seed (i : ℕ) : isBorderPx img.w img.h i → isWhitish img thresholdSq i = true →
      ReachBG img thresholdSq i
  | step (i j : ℕ) : ReachBG img thresholdSq i → adjacentPx img.w img.h i j →
      isWhitish img thresholdSq j = true → ReachBG img thresholdSq j

/-! ### Grid index arithmetic -/

/-- Mod and div of a decomposed flat index. -/
lemma mod_div_of_eq {w y x : ℕ} (hx : x < w) :
    (w * y + x) % w = x ∧ (w * y + x) / w = y := by
  have hw : 0 < w := by omega
  constructor
  · rw [Nat.mul_add_mod]
    exact Nat.mod_eq_of_lt hx
  · rw [Nat.mul_add_div hw, Nat.div_eq_of_lt hx, add_zero]

/-- Decompose a valid flat index into its column and row. -/
lemma grid_decomp {w h idx : ℕ} (hw : 0 < w) (hidx : idx < w * h) :
    ∃ x y, x < w ∧ y < h ∧ idx = w * y + x ∧ idx % w = x ∧ idx / w = y := by
  refine ⟨idx % w, idx / w, Nat.mod_lt _ hw, ?_, ?_, rfl, rfl⟩
  · exact Nat.div_lt_of_lt_mul hidx
  · exact (Nat.div_add_mod idx w).symm

/-- A decomposed flat index is valid. -/
lemma mul_bound_helper {w y h x : ℕ} (hx : x < w) (hy : y < h) : w * y + x < w * h := by
  have h1 : y + 1 ≤ h := hy
  have h2 : w * (y + 1) ≤ w * h := Nat.mul_le_mul (le_refl w) h1
  have h3 : w * (y + 1) = w * y + w := by ring
  omega

/-- Positive width from a valid index. -/
lemma w_pos_of_valid {w h idx : ℕ} (hidx : idx < w * h) : 0 < w := by
  rcases Nat.eq_zero_or_pos w with rfl | hw
  · simp at hidx
  · exact hw

/-- Membership in the neighbour candidate list, by the source's guards. -/
lemma mem_neighbors {w h idx j : ℕ} :
    j ∈ neighbors w h idx ↔
      (0 < idx % w ∧ j = idx - 1) ∨ (idx % w < w - 1 ∧ j = idx + 1) ∨
      (0 < idx / w ∧ j = idx - w) ∨ (idx / w < h - 1 ∧ j = idx + w) := by
  unfold neighbors
  by_cases h1 : 0 < idx % w <;> by_cases h2 : idx % w < w - 1 <;>
    by_cases h3 : 0 < idx / w <;> by_cases h4 : idx / w < h - 1 <;>
      simp [h1, h2, h3, h4]

/-- The four neighbour candidates of a valid pixel are pairwise distinct. -/
lemma neighbors_nodup {w h idx : ℕ} (hidx : idx < w * h) : (neighbors w h idx).Nodup := by
  have hw : 0 < w := w_pos_of_valid hidx
  have hmodle : idx % w ≤ idx := Nat.mod_le idx w
  have hmodlt : idx % w < w := Nat.mod_lt _ hw
  have hdivcase : idx / w = 0 ∨ w ≤ idx := by
    rcases Nat.lt_or_ge idx w with hlt | hge
    · exact Or.inl (Nat.div_eq_of_lt hlt)
    · exact Or.inr hge
  unfold neighbors
  by_cases h1 : 0 < idx % w <;> by_cases h2 : idx % w < w - 1 <;>
    by_cases h3 : 0 < idx / w <;> by_cases h4 : idx / w < h - 1 <;>
      simp [h1, h2, h3, h4] <;> omega

/-- The neighbour candidates of a valid pixel are valid. -/
lemma neighbors_valid {w h idx : ℕ} (hidx : idx < w * h) :
    ∀ j ∈ neighbors w h idx, j < w * h := by
  intro j hj
  have hw : 0 < w := w_pos_of_valid hidx
  obtain ⟨x, y, hxlt, hylt, hidxeq, hmod, hdiv⟩ := grid_decomp hw hidx
  rcases mem_neighbors.mp hj with ⟨h1, rfl⟩ | ⟨h2, rfl⟩ | ⟨h3, rfl⟩ | ⟨h4, rfl⟩
  · omega
  · have hx1 : x + 1 < w := by omega
    have hb : w * y + (x + 1) < w * h := mul_bound_helper hx1 hylt
    omega
  · omega
  · have hy1 : y + 1 < h := by omega
    have hb : w * (y + 1) + x < w * h := mul_bound_helper hxlt hy1
    have he : w * (y + 1) = w * y + w := by ring
    omega

/-- For a valid pixel, the neighbour candidate list contains exactly the
4-connected valid indices. -/
lemma mem_neighbors_iff_adjacent {w h idx j : ℕ} (hidx : idx < w * h) :
    j ∈ neighbors w h idx ↔ adjacentPx w h idx j := by
  have hw : 0 < w := w_pos_of_valid hidx
  obtain ⟨x, y, hxlt, hylt, hidxeq, hmod, hdiv⟩ := grid_decomp hw hidx
  unfold adjacentPx
  constructor
  · intro hj
    rcases mem_neighbors.mp hj with ⟨h1, rfl⟩ | ⟨h2, rfl⟩ | ⟨h3, rfl⟩ | ⟨h4, rfl⟩
    · rw [hmod] at h1
      have hje : idx - 1 = w * y + (x - 1) := by omega
      obtain ⟨hm, hd⟩ := @mod_div_of_eq w y (x - 1) (by omega)
      refine ⟨hidx, by omega, Or.inl ⟨?_, Or.inr ?_⟩⟩
      · rw [hdiv, hje, hd]
      · rw [hmod, hje, hm]
        omega
    · rw [hmod] at h2
      have hje : idx + 1 = w * y + (x + 1) := by omega
      obtain ⟨hm, hd⟩ := @mod_div_of_eq w y (x + 1) (by omega)
      refine ⟨hidx, ?_, Or.inl ⟨?_, Or.inl ?_⟩⟩
      · have := @mul_bound_helper w y h (x + 1) (by omega) hylt
        omega
      · rw [hdiv, hje, hd]
      · rw [hmod, hje, hm]
    · rw [hdiv] at h3
      have hje : idx - w = w * (y - 1) + x := by
        have he : w * (y - 1) + w = w * y := by
          have h1 : y - 1 + 1 = y := by omega
          calc w * (y - 1) + w = w * (y - 1 + 1) := by ring
            _ = w * y := by rw [h1]
        omega
      obtain ⟨hm, hd⟩ := @mod_div_of_eq w (y - 1) x hxlt
      refine ⟨hidx, by omega, Or.inr ⟨?_, Or.inr ?_⟩⟩
      · rw [hmod, hje, hm]
      · rw [hdiv, hje, hd]
        omega
    · rw [hdiv] at h4
      have hje : idx + w = w * (y + 1) + x := by
        have he : w * (y + 1) = w * y + w := by ring
        omega
      obtain ⟨hm, hd⟩ := @mod_div_of_eq w (y + 1) x hxlt
      refine ⟨hidx, ?_, Or.inr ⟨?_, Or.inl ?_⟩⟩
      · have := @mul_bound_helper w (y + 1) h x hxlt (by omega)
        omega
      · rw [hmod, hje, hm]
      · rw [hdiv, hje, hd]
  · rintro ⟨-, hjv, hcase⟩
    obtain ⟨x2, y2, hx2lt, hy2lt, hjeq, hmod2, hdiv2⟩ := grid_decomp hw hjv
    rw [mem_neighbors]
    rcases hcase with ⟨hrow, hcol⟩ | ⟨hcol, hrow⟩
    · rw [hdiv, hdiv2] at hrow
      subst hrow
      rw [hmod, hmod2] at hcol
      rcases hcol with hc | hc
      · refine Or.inr (Or.inl ⟨?_, ?_⟩) <;> omega
      · refine Or.inl ⟨?_, ?_⟩ <;> omega
    · rw [hmod, hmod2] at hcol
      subst hcol
      rw [hdiv, hdiv2] at hrow
      rcases hrow with hc | hc
      · -- j is the row below: j = idx + w
        subst hc
        refine Or.inr (Or.inr (Or.inr ⟨?_, ?_⟩))
        · omega
        · have he : w * (y + 1) = w * y + w := by ring
          omega
      · -- j is the row above: j = idx - w
        subst hc
        refine Or.inr (Or.inr (Or.inl ⟨?_, ?_⟩))
        · omega
        · have he : w * (y2 + 1) = w * y2 + w := by ring
          omega

/-- Every background-reachable pixel is a valid index. -/
lemma ReachBG.valid {img : Image} {tSq : ℤ} {i : ℕ} (hr : ReachBG img tSq i) :
    i < img.w * img.h := by
  induction hr with
  | seed i hb _ => exact hb.1
  | step i j _ hadj _ _ => exact hadj.2.1

/-! ### Seeding -/

/-- Membership after one seeding check. -/
lemma mem_seedStep {img : Image} {tSq : ℤ} {acc : List ℕ} {i j : ℕ} :
    j ∈ seedStep img tSq acc i ↔ j ∈ acc ∨ (j = i ∧ isWhitish img tSq i = true) := by
  unfold seedStep
  split_ifs with h1 h2
  · constructor
    · exact fun h => Or.inl h
    · rintro (h | ⟨rfl, -⟩)
      · exact h
      · exact h1
  · simp [h2]
  · constructor
    · exact fun h => Or.inl h
    · rintro (h | ⟨rfl, hwh⟩)
      · exact h
      · exact absurd hwh h2

/-- Membership in the seed fold: the accumulator plus every white-ish
element of the processed list. -/
lemma mem_foldl_seedStep {img : Image} {tSq : ℤ} :
    ∀ (l acc : List ℕ) (j : ℕ),
      j ∈ l.foldl (seedStep img tSq) acc ↔
        j ∈ acc ∨ (j ∈ l ∧ isWhitish img tSq j = true)
  | [], acc, j => by simp
  | a :: l, acc, j => by
    rw [List.foldl_cons, mem_foldl_seedStep l (seedStep img tSq acc a) j, mem_seedStep]
    constructor
    · rintro ((h | ⟨rfl, hw⟩) | ⟨hl, hw⟩)
      · exact Or.inl h
      · exact Or.inr ⟨List.mem_cons_self _ _, hw⟩
      · exact Or.inr ⟨List.mem_cons_of_mem _ hl, hw⟩
    · rintro (h | ⟨hm, hw⟩)
      · exact Or.inl (Or.inl h)
      · rcases List.mem_cons.mp hm with rfl | hl
        · exact Or.inl (Or.inr ⟨rfl, hw⟩)
        · exact Or.inr ⟨hl, hw⟩

/-- The seed fold preserves distinctness of the accumulator. -/
lemma nodup_foldl_seedStep {img : Image} {tSq : ℤ} :
    ∀ (l acc : List ℕ), acc.Nodup → (l.foldl (seedStep img tSq) acc).Nodup
  | [], _, h => h
  | a :: l, acc, h => by
    rw [List.foldl_cons]
    apply nodup_foldl_seedStep
    unfold seedStep
    split_ifs with h1 h2
    · exact h
    · rw [List.nodup_append]
      exact ⟨h, List.nodup_singleton a, by
        intro b hb hb1
        rw [List.mem_singleton] at hb1
        exact h1 (hb1 ▸ hb)⟩
    · exact h

/-- The source's two seeding loops enumerate exactly the border pixels. -/
lemma mem_borderSeedList {w h : ℕ} (hw : 0 < w) (hh : 0 < h) {i : ℕ} :
    i ∈ borderSeedList w h ↔ isBorderPx w h i := by
  unfold borderSeedList isBorderPx
  constructor
  · intro hmem
    rcases List.mem_append.mp hmem with hmem | hmem
    · rw [List.mem_bind] at hmem
      obtain ⟨x, hx, hmem⟩ := hmem
      rw [List.mem_range] at hx
      rcases List.mem_cons.mp hmem with rfl | hmem
      · exact ⟨lt_of_lt_of_le hx (Nat.le_mul_of_pos_right w hh),
          Or.inr (Or.inr (Or.inl (Nat.div_eq_of_lt hx)))⟩
      · rcases List.mem_cons.mp hmem with rfl | hmem
        · obtain ⟨hm, hd⟩ := @mod_div_of_eq w (h - 1) x hx
          have he : (h - 1) * w + x = w * (h - 1) + x := by ring
          rw [he]
          refine ⟨mul_bound_helper hx (by omega), Or.inr (Or.inr (Or.inr ?_))⟩
          rw [hd]
          omega
        · simp at hmem
    · rw [List.mem_bind] at hmem
      obtain ⟨k, hk, hmem⟩ := hmem
      rw [List.mem_range] at hk
      rcases List.mem_cons.mp hmem with rfl | hmem
      · have he : (k + 1) * w = w * (k + 1) + 0 := by ring
        obtain ⟨hm, hd⟩ := @mod_div_of_eq w (k + 1) 0 hw
        rw [he]
        exact ⟨mul_bound_helper hw (by omega), Or.inl hm⟩
      · rcases List.mem_cons.mp hmem with rfl | hmem
        · have he : (k + 1) * w + (w - 1) = w * (k + 1) + (w - 1) := by ring
          obtain ⟨hm, hd⟩ := @mod_div_of_eq w (k + 1) (w - 1) (by omega)
          rw [he]
          refine ⟨mul_bound_helper (by omega) (by omega), Or.inr (Or.inl ?_)⟩
          rw [hm]
          omega
        · simp at hmem
  · rintro ⟨hival, hcase⟩
    obtain ⟨x, y, hxlt, hylt, hieq, hmod, hdiv⟩ := grid_decomp hw hival
    rw [hmod, hdiv] at hcase
    by_cases hy0 : y = 0
    · apply List.mem_append_left
      rw [List.mem_bind]
      refine ⟨x, by rw [List.mem_range]; exact hxlt, ?_⟩
      have hix : i = x := by
        subst hy0
        have hz : w * 0 = 0 := by ring
        omega
      rw [List.mem_cons]
      exact Or.inl hix
    · by_cases hyh : y + 1 = h
      · apply List.mem_append_left
        rw [List.mem_bind]
        refine ⟨x, by rw [List.mem_range]; exact hxlt, ?_⟩
        have he : (h - 1) * w + x = w * y + x := by
          have h1 : h - 1 = y := by omega
          rw [h1]
          ring_nf
        have hib : i = (h - 1) * w + x := by omega
        rw [List.mem_cons, List.mem_cons]
        exact Or.inr (Or.inl hib)
      · rcases hcase with hx0 | hxw | hy0' | hyh'
        · apply List.mem_append_right
          rw [List.mem_bind]
          refine ⟨y - 1, by rw [List.mem_range]; omega, ?_⟩
          have h1 : y - 1 + 1 = y := by omega
          have hib : i = (y - 1 + 1) * w := by
            rw [h1]
            have h2 : y * w = w * y := by ring
            omega
          rw [List.mem_cons]
          exact Or.inl hib
        · apply List.mem_append_right
          rw [List.mem_bind]
          refine ⟨y - 1, by rw [List.mem_range]; omega, ?_⟩
          have h1 : y - 1 + 1 = y := by omega
          have hib : i = (y - 1 + 1) * w + (w - 1) := by
            rw [h1]
            have h2 : y * w = w * y := by ring
            omega
          rw [List.mem_cons, List.mem_cons]
          exact Or.inr (Or.inl hib)
        · exact absurd hy0' hy0
        · exact absurd hyh' hyh

/-- Membership in the seed queue: exactly the white-ish border pixels. -/
lemma mem_seedPass {img : Image} {tSq : ℤ} (hw : 0 < img.w) (hh : 0 < img.h) {i : ℕ} :
    i ∈ seedPass img tSq ↔ isBorderPx img.w img.h i ∧ isWhitish img tSq i = true := by
  unfold seedPass
  rw [mem_foldl_seedStep]
  simp [mem_borderSeedList hw hh]

/-- The seed queue has no duplicates. -/
lemma seedPass_nodup {img : Image} {tSq : ℤ} : (seedPass img tSq).Nodup :=
  nodup_foldl_seedStep _ _ List.nodup_nil

/-! ### BFS correctness -/

/-- The loop invariant of the BFS of lines 95-117: the visited marks are
distinct valid indices, every queued pixel is marked, and every marked
pixel no longer in the queue has all its white-ish neighbours marked. -/
structure FloodInv (img : Image) (tSq : ℤ) (queue visited : List ℕ) : Prop where
  nodup : visited.Nodup
  valid : ∀ i ∈ visited, i < img.w * img.h
  queue_sub : ∀ i ∈ queue, i ∈ visited
  closed : ∀ i ∈ visited, i ∉ queue →
    ∀ j ∈ neighbors img.w img.h i, isWhitish img tSq j = true → j ∈ visited

/-- A distinct list of valid indices has at most `n` elements. -/
lemma length_le_of_nodup_valid {l : List ℕ} {n : ℕ} (hnd : l.Nodup)
    (hv : ∀ i ∈ l, i < n) : l.length ≤ n := by
  classical
  calc l.length = l.toFinset.card := (List.toFinset_card_of_nodup hnd).symm
    _ ≤ (Finset.range n).card := by
        apply Finset.card_le_card
        intro i hi
        exact Finset.mem_range.mpr (hv i (List.mem_toFinset.mp hi))
    _ = n := Finset.card_range n

/-- One BFS iteration preserves the invariant. -/
lemma floodInv_step {img : Image} {tSq : ℤ} {idx : ℕ} {rest visited : List ℕ}
    (inv : FloodInv img tSq (idx :: rest) visited) :
    FloodInv img tSq
      (rest ++ (neighbors img.w img.h idx).filter
          (fun n => decide (n ∉ visited) && isWhitish img tSq n))
      (visited ++ (neighbors img.w img.h idx).filter
          (fun n => decide (n ∉ visited) && isWhitish img tSq n)) := by
  have hidxm : idx ∈ visited := inv.queue_sub idx (List.mem_cons_self _ _)
  have hidxv : idx < img.w * img.h := inv.valid idx hidxm
  set cand := (neighbors img.w img.h idx).filter
      (fun n => decide (n ∉ visited) && isWhitish img tSq n) with hcand
  have hmem : ∀ n ∈ cand, n ∈ neighbors img.w img.h idx ∧ n ∉ visited ∧
      isWhitish img tSq n = true := by
    intro n hn
    rw [hcand, List.mem_filter] at hn
    obtain ⟨h1, h2⟩ := hn
    simp only [Bool.and_eq_true, decide_eq_true_eq] at h2
    exact ⟨h1, h2.1, h2.2⟩
  have hmem2 : ∀ n, n ∈ neighbors img.w img.h idx → n ∉ visited →
      isWhitish img tSq n = true → n ∈ cand := by
    intro n h1 h2 h3
    rw [hcand, List.mem_filter]
    refine ⟨h1, ?_⟩
    simp only [Bool.and_eq_true, decide_eq_true_eq]
    exact ⟨h2, h3⟩
  refine ⟨?_, ?_, ?_, ?_⟩
  · rw [List.nodup_append]
    refine ⟨inv.nodup, List.Nodup.filter _ (neighbors_nodup hidxv), ?_⟩
    intro a ha hacand
    exact (hmem a hacand).2.1 ha
  · intro i hi
    rcases List.mem_append.mp hi with hi | hi
    · exact inv.valid i hi
    · exact neighbors_valid hidxv i (hmem i hi).1
  · intro i hi
    rcases List.mem_append.mp hi with hi | hi
    · exact List.mem_append_left _ (inv.queue_sub i (List.mem_cons_of_mem _ hi))
    · exact List.mem_append_right _ hi
  · intro i hi hnotq j hj hwj
    rcases List.mem_append.mp hi with hiv | hic
    · by_cases hieq : i = idx
      · subst hieq
        by_cases hjv : j ∈ visited
        · exact List.mem_append_left _ hjv
        · exact List.mem_append_right _ (hmem2 j hj hjv hwj)
      · have hrest : i ∉ rest := fun hr => hnotq (List.mem_append_left _ hr)
        have hq : i ∉ idx :: rest := by
          intro hq
          rcases List.mem_cons.mp hq with h | h
          · exact hieq h
          · exact hrest h
        exact List.mem_append_left _ (inv.closed i hiv hq j hj hwj)
    · exact absurd (List.mem_append_right rest hic) hnotq

/-- The BFS only adds marks: the initial visited list is contained in the
result. -/
lemma floodLoop_subset (img : Image) (tSq : ℤ) :
    ∀ (fuel : ℕ) (queue visited : List ℕ) (i : ℕ),
      i ∈ visited → i ∈ floodLoop img tSq fuel queue visited
  | 0, _, _, _, hi => hi
  | _ + 1, [], _, _, hi => hi
  | fuel + 1, idx :: rest, visited, i, hi => by
    simp only [floodLoop]
    exact floodLoop_subset img tSq fuel _ _ i (List.mem_append_left _ hi)

/-- Soundness: if every queued and marked pixel is background-reachable,
so is every pixel marked by the rest of the BFS. -/
lemma floodLoop_sound (img : Image) (tSq : ℤ) :
    ∀ (fuel : ℕ) (queue visited : List ℕ),
      (∀ i ∈ visited, ReachBG img tSq i) →
      (∀ i ∈ queue, ReachBG img tSq i) →
      ∀ j ∈ floodLoop img tSq fuel queue visited, ReachBG img tSq j
  | 0, _, _, hv, _, _, hj => hv _ hj
  | _ + 1, [], _, hv, _, _, hj => hv _ hj
  | fuel + 1, idx :: rest, visited, hv, hq, j, hj => by
    simp only [floodLoop] at hj
    have hidxR : ReachBG img tSq idx := hq idx (List.mem_cons_self _ _)
    have hidxv : idx < img.w * img.h := hidxR.valid
    have hcand : ∀ n ∈ (neighbors img.w img.h idx).filter
        (fun n => decide (n ∉ visited) && isWhitish img tSq n), ReachBG img tSq n := by
      intro n hn
      rw [List.mem_filter] at hn
      obtain ⟨hmemn, hcond⟩ := hn
      simp only [Bool.and_eq_true, decide_eq_true_eq] at hcond
      exact ReachBG.step idx n hidxR ((mem_neighbors_iff_adjacent hidxv).mp hmemn) hcond.2
    exact floodLoop_sound img tSq fuel _ _
      (fun i hi => (List.mem_append.mp hi).elim (hv i) (hcand i))
      (fun i hi => (List.mem_append.mp hi).elim
        (fun hr => hq i (List.mem_cons_of_mem _ hr)) (hcand i))
      j hj

/-- Completeness core: given the invariant and enough fuel for the queue
to drain, the final mark set is closed under white-ish neighbours. -/
lemma floodLoop_closed (img : Image) (tSq : ℤ) :
    ∀ (fuel : ℕ) (queue visited : List ℕ),
      FloodInv img tSq queue visited →
      2 * (img.w * img.h - visited.length) + queue.length ≤ fuel →
      ∀ p ∈ floodLoop img tSq fuel queue visited,
        ∀ j ∈ neighbors img.w img.h p, isWhitish img tSq j = true →
          j ∈ floodLoop img tSq fuel queue visited
  | 0, queue, visited, inv, hmeas, p, hp, j, hj, hwj => by
    have hq0 : queue = [] := List.length_eq_zero.mp (by omega)
    subst hq0
    exact inv.closed p hp (by simp) j hj hwj
  | _ + 1, [], visited, inv, hmeas, p, hp, j, hj, hwj =>
    inv.closed p hp (by simp) j hj hwj
  | fuel + 1, idx :: rest, visited, inv, hmeas, p, hp, j, hj, hwj => by
    simp only [floodLoop] at hp ⊢
    have inv2 := floodInv_step inv
    have hlen : (visited ++ (neighbors img.w img.h idx).filter
        (fun n => decide (n ∉ visited) && isWhitish img tSq n)).length ≤
          img.w * img.h :=
      length_le_of_nodup_valid inv2.nodup inv2.valid
    have hmeas2 : 2 * (img.w * img.h -
        (visited ++ (neighbors img.w img.h idx).filter
          (fun n => decide (n ∉ visited) && isWhitish img tSq n)).length) +
        (rest ++ (neighbors img.w img.h idx).filter
          (fun n => decide (n ∉ visited) && isWhitish img tSq n)).length ≤ fuel := by
      rw [List.length_append, List.length_append] at *
      rw [List.length_cons] at hmeas
      omega
    exact floodLoop_closed img tSq fuel _ _ inv2 hmeas2 p hp j hj hwj

/-- The visited set computed by `removeWhiteBackground` is exactly the set
of background-reachable pixels. -/
lemma mem_floodVisited_iff {img : Image} {threshold : ℤ}
    (hw : 0 < img.w) (hh : 0 < img.h) (i : ℕ) :
    i ∈ floodVisited img threshold ↔ ReachBG img (threshold * threshold) i := by
  unfold floodVisited
  have hseedR : ∀ j ∈ seedPass img (threshold * threshold),
      ReachBG img (threshold * threshold) j := by
    intro j hj
    obtain ⟨hb, hwh⟩ := (mem_seedPass hw hh).mp hj
    exact ReachBG.seed j hb hwh
  have hinv : FloodInv img (threshold * threshold)
      (seedPass img (threshold * threshold)) (seedPass img (threshold * threshold)) := by
    refine ⟨seedPass_nodup, ?_, fun i hi => hi, ?_⟩
    · intro i hi
      exact ((mem_seedPass hw hh).mp hi).1.1
    · intro i hi hq
      exact absurd hi hq
  have hlen : (seedPass img (threshold * threshold)).length ≤ img.w * img.h :=
    length_le_of_nodup_valid seedPass_nodup (fun i hi => ((mem_seedPass hw hh).mp hi).1.1)
  have hmeas : 2 * (img.w * img.h - (seedPass img (threshold * threshold)).length) +
      (seedPass img (threshold * threshold)).length ≤ 2 * (img.w * img.h) := by
    omega
  constructor
  · intro hi
    exact floodLoop_sound img (threshold * threshold) _ _ _ hseedR hseedR i hi
  · intro hr
    induction hr with
    | seed j hb hwh =>
      exact floodLoop_subset img (threshold * threshold) _ _ _ j
        ((mem_seedPass hw hh).mpr ⟨hb, hwh⟩)
    | step a b hra hadj hwhb ih =>
      exact floodLoop_closed img (threshold * threshold) (2 * (img.w * img.h)) _ _
        hinv hmeas a ih b ((mem_neighbors_iff_adjacent hra.valid).mpr hadj) hwhb


/-! ### Concrete test images -/

/-- A fully opaque pure-white pixel. -/
def whitePixel : Pixel := ⟨255, 255, 255, 255⟩

/-- A fully opaque pure-black pixel. -/
def blackPixel : Pixel := ⟨0, 0, 0, 255⟩

/-- The fully white 10-by-10 test image. -/
def white10 : Image := ⟨10, 10, fun _ => whitePixel⟩

/-- The white-bordered 10-by-10 test image with a fully opaque black
2-by-2 island at columns 4-5, rows 4-5 (flat indices 44, 45, 54, 55),
not touching any edge. -/
def islandImage : Image :=
  ⟨10, 10, fun i => if i = 44 ∨ i = 45 ∨ i = 54 ∨ i = 55 then blackPixel else whitePixel⟩

set_option maxRecDepth 400000 in
set_option maxHeartbeats 4000000 in
/-- Claim C3: the flood-fill background normalizer zeroes the alpha of
exactly the pixels reachable from a border pixel through a 4-connected
path of background-like pixels — the output alpha is zero iff the pixel is
border-reachable or was already zero, and unreachable pixels are untouched.
On the fully white 10-by-10 image every output pixel has alpha 0; on the
black-2-by-2-island image every island pixel keeps alpha 255. -/
theorem claim_C3_flood_fill_exactness :
    (∀ (img : Image) (threshold : ℤ), 0 < img.w → 0 < img.h → ∀ i : ℕ,
        (((removeWhiteBackground img threshold).px i).a = 0 ↔
          ReachBG img (threshold * threshold) i ∨ (img.px i).a = 0)) ∧
    (∀ (img : Image) (threshold : ℤ), 0 < img.w → 0 < img.h → ∀ i : ℕ,
        ¬ ReachBG img (threshold * threshold) i →
          (removeWhiteBackground img threshold).px i = img.px i) ∧
    (∀ i, i < 100 → ((removeWhiteBackground white10 30).px i).a = 0) ∧
    (((removeWhiteBackground islandImage 30).px 44).a = 255 ∧
     ((removeWhiteBackground islandImage 30).px 45).a = 255 ∧
     ((removeWhiteBackground islandImage 30).px 54).a = 255 ∧
     ((removeWhiteBackground islandImage 30).px 55).a = 255) := by
  refine ⟨?_, ?_, ?_, ?_⟩
  · intro img threshold hw hh i
    by_cases hm : i ∈ floodVisited img threshold
    · have hreach := (mem_floodVisited_iff hw hh i).mp hm
      simp [removeWhiteBackground, hm, hreach]
    · simp only [removeWhiteBackground, hm, if_false]
      constructor
      · intro ha
        exact Or.inr ha
      · rintro (hr | ha)
        · exact absurd ((mem_floodVisited_iff hw hh i).mpr hr) hm
        · exact ha
  · intro img threshold hw hh i hnr
    have hm : i ∉ floodVisited img threshold :=
      fun hm => hnr ((mem_floodVisited_iff hw hh i).mp hm)
    simp [removeWhiteBackground, hm]
  · decide
  · refine ⟨?_, ?_, ?_, ?_⟩ <;> decide

/-- Witness for C3: the top-left pixel of the fully white 10-by-10 image
ends with alpha 0. -/
theorem claim_C3_flood_fill_exactness_witness :
    (0 : ℕ) < 100 ∧ ((removeWhiteBackground white10 30).px 0).a = 0 :=
  ⟨by norm_num, claim_C3_flood_fill_exactness.2.2.1 0 (by norm_num)⟩

/-- Claim C10: the flood-fill background normalizer never changes the R, G
or B channel of any pixel; the alpha channel is either unchanged or set to
0, and it is only zeroed on border-reachable background pixels. -/
theorem claim_C10_rgb_preserved :
    (∀ (img : Image) (threshold : ℤ) (i : ℕ),
        ((removeWhiteBackground img threshold).px i).r = (img.px i).r ∧
        ((removeWhiteBackground img threshold).px i).g = (img.px i).g ∧
        ((removeWhiteBackground img threshold).px i).b = (img.px i).b) ∧
    (∀ (img : Image) (threshold : ℤ), 0 < img.w → 0 < img.h → ∀ i : ℕ,
        ((removeWhiteBackground img threshold).px i).a = (img.px i).a ∨
        (((removeWhiteBackground img threshold).px i).a = 0 ∧
          ReachBG img (threshold * threshold) i)) := by
  constructor
  · intro img threshold i
    by_cases hm : i ∈ floodVisited img threshold <;>
      simp [removeWhiteBackground, hm]
  · intro img threshold hw hh i
    by_cases hm : i ∈ floodVisited img threshold
    · refine Or.inr ⟨?_, (mem_floodVisited_iff hw hh i).mp hm⟩
      simp [removeWhiteBackground, hm]
    · left
      simp [removeWhiteBackground, hm]

/-- Witness for C10 on the fully white 10-by-10 image at pixel 0. -/
theorem claim_C10_rgb_preserved_witness :
    ((removeWhiteBackground white10 30).px 0).a = (white10.px 0).a ∨
    (((removeWhiteBackground white10 30).px 0).a = 0 ∧
      ReachBG white10 (30 * 30) 0) :=
  claim_C10_rgb_preserved.2 white10 30 (by norm_num [white10]) (by norm_num [white10]) 0
